import Mathlib

/-!
Verification development for the C container library (dynamic-array vector,
chained hash map, singly linked list).  The C sources are shallowly embedded:
each exported C function becomes a Lean function on an explicit state record,
machine pointers to byte buffers become `List Nat`, out-parameters become
explicit result components, and calls to the installed destroy callback are
recorded in an explicit event list so that cleanup behaviour is observable.
-/

set_option maxHeartbeats 1000000
set_option maxRecDepth 100000

namespace CCDS

/-
Return codes.  The header `util.h` that defines them is not among the provided
sources; they are modelled as pairwise distinct integers.  All properties below
only depend on the codes being discriminable, never on their numeric values.
-/

/-- Success marker returned by the container operations. -/
def SUCC : Int := 0

/-- End-of-iteration sentinel of the hash-map cursor. -/
def END : Int := 1

/-- Not-found signal of keyed lookups (a well-formed query that finds nothing). -/
def NOKEY : Int := 2

/-- Error: operation invoked on a null or partially constructed handle. -/
def ERR_NOINIT : Int := -1

/-- Error: allocation or reallocation failure. -/
def ERR_NOMEM : Int := -2

/-- Error: positional operation given an index outside its valid bound. -/
def ERR_IDX : Int := -3

/-- Error: zero-length key supplied to a keyed operation. -/
def ERR_KEYSIZE : Int := -4

/-- Error: removal target absent from the map. -/
def ERR_NODATA : Int := -5

/-- Error: null output slot passed to a retrieval operation. -/
def ERR_GET : Int := -6

/-
Hash map (open hashing with chaining).  A `Key` pointer together with the
caller-supplied byte count denotes a byte range; the pointee is modelled as the
list of bytes.  A `Value` is an opaque pointer, with `none` standing for NULL.
-/

/-- Byte buffer designated by a key pointer.  Callers must supply buffers of at
least the stated key size; `memcmp` only ever reads that prefix. -/
abbrev Key := List Nat

/-- Opaque value pointer; `none` models NULL. -/
abbrev Value := Option Int

/-- A key/value pair handed to the map by the caller. -/
structure Pair where
  key : Key
  value : Value
  deriving DecidableEq, Repr

/-- Truth of `memcmp(a, b, size) == 0`: the first `size` bytes agree.  (In C,
reading past either buffer is the caller's fault; the model compares the
prefixes that exist.) -/
def memcmpZero (a b : Key) (size : Nat) : Bool :=
  a.take size == b.take size

/-- The magic prime table sizing the slot array. -/
def aMagicPrimes : List Nat :=
  [769, 1543, 3079, 6151, 12289, 24593, 49157, 98317, 196613, 393241, 786433,
   1572869, 3145739, 6291469, 12582917, 25165843, 50331653, 100663319,
   201326611, 402653189, 805306457, 1610612741]

/-- Private data of the hash map (`struct _HashMapData`).  Each slot of
`aSlot_` holds its chain of `SlotNode`s as the list of the pairs they carry;
`pIterNode_` is the cursor's remaining chain suffix (`[]` models NULL).  The
destroy callback acts only on caller-owned pair payloads, never on the map
state, so it is not part of the model. -/
structure HashMapData where
  bEnd_ : Bool
  iSize_ : Int
  iIdxPrime_ : Int
  iCountSlot_ : Nat
  iIterIdx_ : Nat
  aSlot_ : List (List Pair)
  pIterNode_ : List Pair
  pHash_ : Key → Nat → Nat

/-- Slot index of a key: the 32-bit hash value reduced modulo the slot count
(`uiValue = pData->pHash_(key, size) % pData->iCountSlot_`). -/
def slotOf (d : HashMapData) (key : Key) (size : Nat) : Nat :=
  (d.pHash_ key size % 2 ^ 32) % d.iCountSlot_

/-- Constructor `HashMapInit`.  The default hash `HashMurMur32` lives in
`math/hash.c`, which is not among the provided sources, so the initially
installed hash function is a parameter.  The constructor writes `iSize_`,
`iIdxPrime_`, `iCountSlot_`, the slot array and the callbacks, but never the
iterator fields `bEnd_`, `iIterIdx_` and `pIterNode_`: those keep whatever the
fresh allocation happened to contain, modelled by the `junk*` parameters. -/
def HashMapInit (hashDefault : Key → Nat → Nat) (junkEnd : Bool) (junkIdx : Nat)
    (junkNode : List Pair) : HashMapData :=
  { bEnd_ := junkEnd
    iSize_ := 0
    iIdxPrime_ := 0
    iCountSlot_ := aMagicPrimes.getD 0 0
    iIterIdx_ := junkIdx
    aSlot_ := List.replicate (aMagicPrimes.getD 0 0) []
    pIterNode_ := junkNode
    pHash_ := hashDefault }

/-- Chain scan of `HashMapPut`: replace the first node whose stored key is
byte-equal to the new pair's key; `none` when no node matches. -/
def chainReplace (chain : List Pair) (p : Pair) (size : Nat) : Option (List Pair) :=
  match chain with
  | [] => none
  | c :: rest =>
    if memcmpZero c.key p.key size then some (p :: rest)
    else (chainReplace rest p size).map (c :: ·)

/-- Operation `HashMapPut`: hash to a slot, replace a byte-equal pair in place,
otherwise prepend a fresh chain node and grow the size. -/
def HashMapPut (d : HashMapData) (p : Pair) (size : Nat) : Int × HashMapData :=
  if size = 0 then (ERR_KEYSIZE, d)
  else
    let idx := slotOf d p.key size
    let chain := d.aSlot_.getD idx []
    match chainReplace chain p size with
    | some chain2 => (SUCC, { d with aSlot_ := d.aSlot_.set idx chain2 })
    | none =>
      (SUCC, { d with aSlot_ := d.aSlot_.set idx (p :: chain),
                      iSize_ := d.iSize_ + 1 })

/-- Chain scan of `HashMapGet`: the value of the first byte-equal node. -/
def chainLookup (chain : List Pair) (key : Key) (size : Nat) : Option Value :=
  match chain with
  | [] => none
  | c :: rest =>
    if memcmpZero c.key key size then some c.value else chainLookup rest key size

/-- Operation `HashMapGet`.  `outPrev` is the content of the caller's output
slot `*pValue` before the call (the C code leaves it untouched on the key-size
error path); the second component is its content after the call.  The
`!pValue` guard concerns a caller passing a null output pointer and is outside
a by-value model. -/
def HashMapGet (d : HashMapData) (key : Key) (size : Nat) (outPrev : Value) :
    Int × Value :=
  if size = 0 then (ERR_KEYSIZE, outPrev)
  else
    match chainLookup (d.aSlot_.getD (slotOf d key size) []) key size with
    | some v => (SUCC, v)
    | none => (NOKEY, none)

/-- Operation `HashMapFind`: existence-only mirror of `HashMapGet`. -/
def HashMapFind (d : HashMapData) (key : Key) (size : Nat) : Int :=
  if size = 0 then ERR_KEYSIZE
  else
    match chainLookup (d.aSlot_.getD (slotOf d key size) []) key size with
    | some _ => SUCC
    | none => NOKEY

/-- Chain scan of `HashMapRemove`: unlink the first byte-equal node; `none`
when no node matches. -/
def chainRemove (chain : List Pair) (key : Key) (size : Nat) : Option (List Pair) :=
  match chain with
  | [] => none
  | c :: rest =>
    if memcmpZero c.key key size then some rest
    else (chainRemove rest key size).map (c :: ·)

/-- Operation `HashMapRemove`: unlink and free the first byte-equal chain
node, or report `ERR_NODATA`.  Note that the C function never writes
`pData->iSize_` — the only writes to that field in the whole translation unit
are the zero in `HashMapInit` and the increment in `HashMapPut` — so a
successful removal leaves the stored size unchanged. -/
def HashMapRemove (d : HashMapData) (key : Key) (size : Nat) : Int × HashMapData :=
  if size = 0 then (ERR_KEYSIZE, d)
  else
    let idx := slotOf d key size
    match chainRemove (d.aSlot_.getD idx []) key size with
    | some chain2 =>
      (SUCC, { d with aSlot_ := d.aSlot_.set idx chain2 })
    | none => (ERR_NODATA, d)

/-- Operation `HashMapSize`. -/
def HashMapSize (d : HashMapData) : Int :=
  d.iSize_

/-- The scanning loop of `HashMapIterate` (drain the current chain, then move
across slots).  In C the loop terminates because `iIterIdx_` reaches
`iCountSlot_`; the structural `fuel` argument carries that bound, and
`HashMapIterate` supplies `iCountSlot_`, which over-approximates the remaining
slot count whenever the cursor index is in range.  The result is the tuple
(return code, new `iIterIdx_`, new `pIterNode_`, new `bEnd_`, pair written to
the output slot). -/
def iterLoop (aSlot : List (List Pair)) (countSlot : Nat) :
    Nat → Nat → List Pair → Int × Nat × List Pair × Bool × Option Pair
  | _, idx, p :: rest => (SUCC, idx, rest, false, some p)
  | 0, idx, [] => (END, idx + 1, [], true, none)
  | fuel + 1, idx, [] =>
    let idx2 := idx + 1
    if idx2 = countSlot then (END, idx2, [], true, none)
    else iterLoop aSlot countSlot fuel idx2 (aSlot.getD idx2 [])

/-- Operation `HashMapIterate`.  `outPrev` is the caller's output slot before
the call; a reset returns `SUCC` without touching it.  With the end flag set
the call is a no-op returning `END` with a cleared output.  Otherwise the
cursor yields the next pair or, once everything is exhausted, latches the end
flag.  The `!ppPair` guard concerns a null output pointer and is outside a
by-value model. -/
def HashMapIterate (d : HashMapData) (bReset : Bool) (outPrev : Option Pair) :
    Int × HashMapData × Option Pair :=
  if bReset then
    (SUCC, { d with iIterIdx_ := 0, pIterNode_ := d.aSlot_.getD 0 [],
                    bEnd_ := false }, outPrev)
  else if d.bEnd_ then
    (END, d, none)
  else
    match iterLoop d.aSlot_ d.iCountSlot_ d.iCountSlot_ d.iIterIdx_ d.pIterNode_ with
    | (code, idx2, node2, end2, out) =>
      (code, { d with iIterIdx_ := idx2, pIterNode_ := node2, bEnd_ := end2 }, out)

/-- Operation `HashMapSetHash`: install a pluggable hash strategy. -/
def HashMapSetHash (d : HashMapData) (f : Key → Nat → Nat) : Int × HashMapData :=
  (SUCC, { d with pHash_ := f })

/-- The spec's concrete removal scenario: a freshly constructed map holding
the four single-byte keys a, b, c, d (values 1..4), with a one-byte hash
installed in place of the unavailable `HashMurMur32` default. -/
def mapABCD : HashMapData :=
  (HashMapPut (HashMapPut (HashMapPut (HashMapPut
    (HashMapInit (fun k _ => k.headD 0) false 0 [])
    ⟨[97], some 1⟩ 1).2 ⟨[98], some 2⟩ 1).2 ⟨[99], some 3⟩ 1).2
    ⟨[100], some 4⟩ 1).2

/-- Drive the iteration to the end: repeatedly call `HashMapIterate` with
`reset=false`, collecting the yielded pairs in order, until a call yields no
pair (the `END` signal).  `fuel` bounds the number of calls; any fuel beyond
the number of remaining pairs is enough. -/
def collectIter : Nat → HashMapData → List Pair × HashMapData
  | 0, d => ([], d)
  | fuel + 1, d =>
    match HashMapIterate d false none with
    | (_, d2, some p) =>
      let r := collectIter fuel d2
      (p :: r.1, r.2)
    | (_, d2, none) => ([], d2)

/-
Dynamic array (vector).  An `Item` is an opaque pointer.  Allocation is
modelled as always succeeding (all claims below concern the behaviour on
successful reallocation; `realloc` failure leaves the C state unchanged and
returns `ERR_NOMEM`).  Growth leaves the new trailing slots uninitialized in
C; the model fills them with the arbitrary byte pattern `0`, and no
bounds-respecting operation ever reads them.  Calls of the installed destroy
callback are returned as an event list (the items passed to it, in call
order), so cleanup behaviour is observable. -/

/-- Opaque item pointer stored by the vector and the list. -/
abbrev Item := Int

/-- Private data of the vector (`struct _VectorData`).  `aItem_` holds the
whole backing array, `iCapacity_` slots long, of which the first `iSize_` are
logically occupied.  `pDestroy_` identifies the installed destroy callback;
`0` is the default `_VectorItemDestroy`. -/
structure VectorData where
  iSize_ : Int
  iCapacity_ : Int
  aItem_ : List Item
  pDestroy_ : Nat
  deriving DecidableEq, Repr

/-- Named `DEFAULT_CAPACITY` of the vector. -/
def DEFAULT_CAPACITY : Int := 1

/-- Constructor `VectorInit`: one uninitialized slot, size zero, default
destroy callback. -/
def VectorInit : VectorData :=
  { iSize_ := 0, iCapacity_ := DEFAULT_CAPACITY, aItem_ := [0], pDestroy_ := 0 }

/-- Internal operation `_VectorReisze` (spelling as in the source).  When the
new capacity undercuts the current size and the clean knob is on, the destroy
callback runs over the trailing items `aItem_[iSizeNew .. iSize_-1]` and the
size drops to `iSizeNew`; then the backing array is reallocated to exactly
`iSizeNew` slots (prefix preserved, growth region uninitialized).  The C
function is documented with the precondition that the designated capacity is
positive; a negative `iSizeNew` would read out of bounds in C and is clamped
to `0` here by `Int.toNat`. -/
def _VectorReisze (pData : VectorData) (iSizeNew : Int) (bClean : Bool) :
    Int × VectorData × List Item :=
  let shrunk :=
    if iSizeNew < pData.iSize_ ∧ bClean = true then
      ({ pData with iSize_ := iSizeNew },
       (pData.aItem_.take pData.iSize_.toNat).drop iSizeNew.toNat)
    else (pData, [])
  let pD := shrunk.1
  let aItemNew :=
    pD.aItem_.take iSizeNew.toNat ++
      List.replicate (iSizeNew.toNat - pD.aItem_.length) 0
  (SUCC, { pD with aItem_ := aItemNew, iCapacity_ := iSizeNew }, shrunk.2)

/-- Operation `VectorPushBack`: double the capacity when full, then write the
item at position `iSize_` and grow the size. -/
def VectorPushBack (d : VectorData) (item : Item) : Int × VectorData × List Item :=
  let grown :=
    if d.iSize_ = d.iCapacity_ then
      ((_VectorReisze d (d.iCapacity_ * 2) false).2.1,
       (_VectorReisze d (d.iCapacity_ * 2) false).2.2)
    else (d, [])
  let d2 := grown.1
  (SUCC, { d2 with aItem_ := d2.aItem_.set d2.iSize_.toNat item,
                   iSize_ := d2.iSize_ + 1 }, grown.2)

/-- Operation `VectorInsert`: bounds check `0 <= iIdx <= iSize_`, double the
capacity when full, move the trailing `iSize_ - iIdx` items one slot to the
right (`memmove`), write the item into the gap, grow the size. -/
def VectorInsert (d : VectorData) (item : Item) (iIdx : Int) :
    Int × VectorData × List Item :=
  if iIdx < 0 ∨ iIdx > d.iSize_ then (ERR_IDX, d, [])
  else
    let grown :=
      if d.iSize_ = d.iCapacity_ then
        ((_VectorReisze d (d.iCapacity_ * 2) false).2.1,
         (_VectorReisze d (d.iCapacity_ * 2) false).2.2)
      else (d, [])
    let d2 := grown.1
    let n := iIdx.toNat
    let s := d2.iSize_.toNat
    let arr := d2.aItem_
    let arrNew :=
      arr.take n ++ item :: ((arr.drop n).take (s - n)) ++ arr.drop (s + 1)
    (SUCC, { d2 with aItem_ := arrNew, iSize_ := d2.iSize_ + 1 }, grown.2)

/-- Operation `VectorPopBack`: fail on an empty vector, otherwise shrink the
size and, with the clean knob on, destroy the dropped item. -/
def VectorPopBack (d : VectorData) (bClean : Bool) : Int × VectorData × List Item :=
  if d.iSize_ = 0 then (ERR_IDX, d, [])
  else
    let d2 := { d with iSize_ := d.iSize_ - 1 }
    (SUCC, d2, if bClean then [d.aItem_.getD (d.iSize_ - 1).toNat 0] else [])

/-- Operation `VectorDelete`: bounds check `0 <= iIdx < iSize_`, optionally
destroy the removed item, move the trailing `iSize_ - iIdx - 1` items one slot
to the left (`memmove`), shrink the size.  The slot at `iSize_ - 1` keeps its
old content (now junk beyond the new size). -/
def VectorDelete (d : VectorData) (iIdx : Int) (bClean : Bool) :
    Int × VectorData × List Item :=
  if iIdx < 0 ∨ iIdx ≥ d.iSize_ then (ERR_IDX, d, [])
  else
    let n := iIdx.toNat
    let s := d.iSize_.toNat
    let arr := d.aItem_
    let log := if bClean then [arr.getD n 0] else []
    let arrNew :=
      arr.take n ++ ((arr.drop (n + 1)).take (s - 1 - n)) ++ arr.drop (s - 1)
    (SUCC, { d with aItem_ := arrNew, iSize_ := d.iSize_ - 1 }, log)

/-- Operation `VectorResize`: delegate to `_VectorReisze`. -/
def VectorResize (d : VectorData) (iSize : Int) (bClean : Bool) :
    Int × VectorData × List Item :=
  _VectorReisze d iSize bClean

/-- Operation `VectorSize`. -/
def VectorSize (d : VectorData) : Int :=
  d.iSize_

/-- Operation `VectorCapacity`. -/
def VectorCapacity (d : VectorData) : Int :=
  d.iCapacity_

/-- Operation `VectorSet`: bounds check `0 <= iIdx < iSize_`, optionally
destroy the overwritten item, then store the new one. -/
def VectorSet (d : VectorData) (item : Item) (iIdx : Int) (bClean : Bool) :
    Int × VectorData × List Item :=
  if iIdx < 0 ∨ iIdx ≥ d.iSize_ then (ERR_IDX, d, [])
  else
    let log := if bClean then [d.aItem_.getD iIdx.toNat 0] else []
    (SUCC, { d with aItem_ := d.aItem_.set iIdx.toNat item }, log)

/-- Operation `VectorGet`: bounds check `0 <= iIdx < iSize_`, then copy the
item into the caller's output slot.  `outPrev` is the slot's content before
the call (untouched on the error path); the second component is its content
after the call. -/
def VectorGet (d : VectorData) (outPrev : Item) (iIdx : Int) : Int × Item :=
  if iIdx < 0 ∨ iIdx ≥ d.iSize_ then (ERR_IDX, outPrev)
  else (SUCC, d.aItem_.getD iIdx.toNat 0)

/-- Operation `VectorSetDestroy`.  The C body installs the callback but,
unlike every sibling setter, has no return statement: the `int32_t` result of
the call is an indeterminate value.  The undefined primary return channel is
modelled as `none`; a defined code `c` would be `some c`. -/
def VectorSetDestroy (d : VectorData) (pFunc : Nat) : Option Int × VectorData :=
  (none, { d with pDestroy_ := pFunc })

/-- Well-formedness of a vector state established by `VectorInit` and kept by
every operation that respects the documented positive-capacity precondition of
`resize`: nonnegative size bounded by the capacity, a positive capacity, and a
backing array of exactly `iCapacity_` slots. -/
def VectorWF (d : VectorData) : Prop :=
  0 ≤ d.iSize_ ∧ d.iSize_ ≤ d.iCapacity_ ∧ 0 < d.iCapacity_ ∧
    d.aItem_.length = d.iCapacity_.toNat

/-
Singly linked list.  Chain nodes are heap objects whose identity matters
(`pTail` stores a node address, which may outlive the node); each allocated
node therefore carries a model identity minted by a counter.  The chain
reachable from `pHead` is the list of its nodes in `pNext` order; `pTail` is
the identity of the node the tail pointer designates (`none` models NULL) and
is tracked separately because the C code does not keep it in step with the
chain. -/

/-- A chain node: its allocation identity and the stored item. -/
structure SinglyLinkedNode where
  nodeId : Nat
  pItem : Item
  deriving DecidableEq, Repr

/-- State of a `SinglyLinkedList`: the node chain reachable from `pHead`, the
node identity held by `pTail`, the stored size, the installed comparator, and
the allocation counter minting node identities. -/
structure SinglyLinkedList where
  chain : List SinglyLinkedNode
  pTail : Option Nat
  iSize : Nat
  compare : Item → Item → Int
  nextId : Nat

/-- Internal `_SLListCompare`: items are treated as primitive values, equal
exactly when identical, larger value ordered after. -/
def _SLListCompare (pSrc pTge : Item) : Int :=
  if pSrc = pTge then 0 else if pSrc > pTge then 1 else -1

/-- Constructor `SLListInit`: empty chain, null head and tail, size zero, the
default comparison strategy installed. -/
def SLListInit : SinglyLinkedList :=
  { chain := [], pTail := none, iSize := 0, compare := _SLListCompare, nextId := 0 }

/-- Operation `SLListAppend` (allocation always succeeds in the model).  On an
empty list both `pHead` and `pTail` are pointed at the new node; otherwise the
C code links the new node through `pTail` (`self->pTail->pNext = new`), which
extends the head chain exactly when `pTail` designates the last chain node —
true in every state satisfying the tail invariant; in a state violating it the
C program writes through a stale pointer (undefined behaviour), and this model
renders the intended append.  Returns the new state and the created node's
identity. -/
def SLListAppend (s : SinglyLinkedList) (pItem : Item) :
    SinglyLinkedList × Option Nat :=
  let n : SinglyLinkedNode := { nodeId := s.nextId, pItem := pItem }
  ({ s with chain := s.chain ++ [n], pTail := some n.nodeId,
            iSize := s.iSize + 1, nextId := s.nextId + 1 }, some n.nodeId)

/-- Operation `SLListInsert`: when `idx <= iSize`, walk to the predecessor and
link a fresh node before the successor, incrementing the size; `pTail` is
never updated.  Out of range, no node is created and NULL is returned (no
distinct error signal). -/
def SLListInsert (s : SinglyLinkedList) (idx : Nat) (pItem : Item) :
    SinglyLinkedList × Option Nat :=
  if idx ≤ s.iSize then
    let n : SinglyLinkedNode := { nodeId := s.nextId, pItem := pItem }
    ({ s with chain := s.chain.take idx ++ n :: s.chain.drop idx,
              iSize := s.iSize + 1, nextId := s.nextId + 1 }, some n.nodeId)
  else (s, none)

/-- Chain scan of `SLListRemove`: unlink the first node whose item compares
equal, returning its item and the shortened chain. -/
def chainUnlink (cmp : Item → Item → Int) (pItem : Item) :
    List SinglyLinkedNode → Option (Item × List SinglyLinkedNode)
  | [] => none
  | c :: rest =>
    if cmp pItem c.pItem = 0 then some (c.pItem, rest)
    else (chainUnlink cmp pItem rest).map (fun r => (r.1, c :: r.2))

/-- Operation `SLListRemove`: unlink and free the first node comparing equal
to the designated item and decrement the size (`pTail` is never updated, even
when the unlinked node is the one it designates); the removed item, or NULL
when no node matches. -/
def SLListRemove (s : SinglyLinkedList) (pItem : Item) :
    SinglyLinkedList × Option Item :=
  match chainUnlink s.compare pItem s.chain with
  | some r => ({ s with chain := r.2, iSize := s.iSize - 1 }, some r.1)
  | none => (s, none)

/-- Operation `SLListPop`: when `idx < iSize`, walk to that position, unlink
and free the node there and decrement the size (`pTail` is never updated);
returns the stored item, or NULL when out of range. -/
def SLListPop (s : SinglyLinkedList) (idx : Nat) :
    SinglyLinkedList × Option Item :=
  if idx < s.iSize then
    ({ s with chain := s.chain.take idx ++ s.chain.drop (idx + 1),
              iSize := s.iSize - 1 },
     some ((s.chain.getD idx { nodeId := 0, pItem := 0 }).pItem))
  else (s, none)

/-- Operation `SLListSearch`: walk the chain applying the comparator. -/
def SLListSearch (s : SinglyLinkedList) (pItem : Item) : Bool :=
  s.chain.any (fun c => s.compare pItem c.pItem == 0)

/-- Operation `SLListReverse`: iteratively relink each node's `pNext` to its
predecessor, in place — the head chain becomes its own reversal, with the same
nodes (no allocation: the counter is untouched) and the same stored items;
`pTail` and `iSize` are never updated. -/
def SLListReverse (s : SinglyLinkedList) : SinglyLinkedList :=
  { s with chain := s.chain.reverse }

/-- The documented list invariant: the stored size counts the nodes reachable
from `pHead`, and `pTail` designates the last reachable node, or NULL when the
list is empty. -/
def SLListWF (s : SinglyLinkedList) : Prop :=
  s.iSize = s.chain.length ∧
    s.pTail = s.chain.getLast?.map SinglyLinkedNode.nodeId

/-!
Claims about the singly linked list.
-/

/-- Claim C9: reversing twice restores the list state — in particular the item
sequence reachable from the head — exactly; one `SLListReverse` relinks the
head chain into its own reversal over the very same nodes: no node is
allocated (the allocation counter is unchanged) and no item is added or
removed (the new chain is a permutation of the old one, and its item sequence
is the old sequence reversed). -/
theorem sllist_reverse_involution (s : SinglyLinkedList) :
    SLListReverse (SLListReverse s) = s ∧
    (SLListReverse s).chain = s.chain.reverse ∧
    (SLListReverse s).chain.map SinglyLinkedNode.pItem
      = (s.chain.map SinglyLinkedNode.pItem).reverse ∧
    (SLListReverse s).nextId = s.nextId ∧
    (SLListReverse s).chain.Perm s.chain := by
  refine ⟨?_, rfl, ?_, rfl, ?_⟩
  · cases s
    simp [SLListReverse]
  · simp [SLListReverse]
  · exact s.chain.reverse_perm


/-- Claim C2 is refuted by the code: with the two-node list built by appending
items 10 and 20 (node identities 0 and 1), popping index 1 — the last node —
frees node 1 yet leaves `pTail` holding node 1, while the last head-reachable
node is node 0; likewise after `SLListReverse` and after `SLListRemove` of the
tail item the stored tail pointer no longer designates the final chain node.
The size half of the invariant is maintained throughout. -/
theorem sllist_tail_invariant_broken :
    SLListWF (SLListAppend (SLListAppend SLListInit 10).1 20).1 ∧
    ¬ SLListWF (SLListPop (SLListAppend (SLListAppend SLListInit 10).1 20).1 1).1 ∧
    (SLListPop (SLListAppend (SLListAppend SLListInit 10).1 20).1 1).1.pTail = some 1 ∧
    (SLListPop (SLListAppend (SLListAppend SLListInit 10).1 20).1 1).1.chain.getLast?.map
        SinglyLinkedNode.nodeId = some 0 ∧
    (SLListPop (SLListAppend (SLListAppend SLListInit 10).1 20).1 1).1.iSize
      = (SLListPop (SLListAppend (SLListAppend SLListInit 10).1 20).1 1).1.chain.length ∧
    ¬ SLListWF (SLListReverse (SLListAppend (SLListAppend SLListInit 10).1 20).1) ∧
    ¬ SLListWF (SLListRemove (SLListAppend (SLListAppend SLListInit 10).1 20).1 20).1 := by
  refine ⟨⟨by decide, by decide⟩, ?_, by decide, by decide, by decide, ?_, ?_⟩
  · exact fun h => absurd h.2 (by decide)
  · exact fun h => absurd h.2 (by decide)
  · exact fun h => absurd h.2 (by decide)

/-!
Claims about the vector.
-/

/-- Claim C3 is refuted by the code: `VectorSetDestroy` does install the given
callback, but its body — unlike every other operation — has no return
statement, so the primary `int32_t` return channel carries an indeterminate
value rather than the success marker (or any fixed error kind).  At a freshly
initialized vector the modelled return channel is `none`: no defined code at
all. -/
theorem vector_set_destroy_undefined_return :
    (VectorSetDestroy VectorInit 7).2.pDestroy_ = 7 ∧
    (VectorSetDestroy VectorInit 7).1 = none ∧
    (VectorSetDestroy VectorInit 7).1 ≠ some SUCC ∧
    ∀ c : Int, (VectorSetDestroy VectorInit 7).1 ≠ some c := by
  refine ⟨rfl, rfl, by decide, fun c => ?_⟩
  simp [VectorSetDestroy]

/-- Reduction of `VectorInsert` on an out-of-range index. -/
theorem vectorInsert_out (d : VectorData) (item : Item) (iIdx : Int)
    (h : iIdx < 0 ∨ iIdx > d.iSize_) : VectorInsert d item iIdx = (ERR_IDX, d, []) := by
  simp [VectorInsert, h]

/-- Reduction of `VectorInsert` on an in-range index: the success marker. -/
theorem vectorInsert_in (d : VectorData) (item : Item) (iIdx : Int)
    (h : ¬(iIdx < 0 ∨ iIdx > d.iSize_)) : (VectorInsert d item iIdx).1 = SUCC := by
  simp [VectorInsert, h]

/-- Reduction of `VectorGet` on the two sides of its bounds check. -/
theorem vectorGet_cases (d : VectorData) (outPrev : Item) (iIdx : Int) :
    (iIdx < 0 ∨ iIdx ≥ d.iSize_ → VectorGet d outPrev iIdx = (ERR_IDX, outPrev)) ∧
    (¬(iIdx < 0 ∨ iIdx ≥ d.iSize_) →
      VectorGet d outPrev iIdx = (SUCC, d.aItem_.getD iIdx.toNat 0)) := by
  constructor
  · intro h; simp [VectorGet, h]
  · intro h; simp [VectorGet, h]

/-- Claim C6: the valid index bounds differ between insertion and access.
`VectorInsert` succeeds exactly on `0 ≤ idx ≤ size` while `VectorGet`,
`VectorSet` and `VectorDelete` succeed exactly on `0 ≤ idx < size`; outside
the respective bound each operation returns `ERR_IDX`, leaves the whole state
(size, capacity and stored items) unchanged, and destroys nothing. -/
theorem vector_index_bounds (d : VectorData) (item outPrev : Item) (iIdx : Int)
    (bClean : Bool) :
    ((VectorInsert d item iIdx).1 = SUCC ↔ 0 ≤ iIdx ∧ iIdx ≤ d.iSize_) ∧
    ((VectorGet d outPrev iIdx).1 = SUCC ↔ 0 ≤ iIdx ∧ iIdx < d.iSize_) ∧
    ((VectorSet d item iIdx bClean).1 = SUCC ↔ 0 ≤ iIdx ∧ iIdx < d.iSize_) ∧
    ((VectorDelete d iIdx bClean).1 = SUCC ↔ 0 ≤ iIdx ∧ iIdx < d.iSize_) ∧
    (¬(0 ≤ iIdx ∧ iIdx ≤ d.iSize_) → VectorInsert d item iIdx = (ERR_IDX, d, [])) ∧
    (¬(0 ≤ iIdx ∧ iIdx < d.iSize_) →
      VectorGet d outPrev iIdx = (ERR_IDX, outPrev) ∧
      VectorSet d item iIdx bClean = (ERR_IDX, d, []) ∧
      VectorDelete d iIdx bClean = (ERR_IDX, d, [])) := by
  refine ⟨?_, ?_, ?_, ?_, ?_, ?_⟩
  · by_cases h : iIdx < 0 ∨ iIdx > d.iSize_
    · rw [vectorInsert_out d item iIdx h]
      exact iff_of_false (by simp [ERR_IDX, SUCC]) (by omega)
    · rw [vectorInsert_in d item iIdx h]
      exact iff_of_true rfl (by omega)
  · by_cases h : iIdx < 0 ∨ iIdx ≥ d.iSize_
    · rw [(vectorGet_cases d outPrev iIdx).1 h]
      exact iff_of_false (by simp [ERR_IDX, SUCC]) (by omega)
    · rw [(vectorGet_cases d outPrev iIdx).2 h]
      exact iff_of_true rfl (by omega)
  · by_cases h : iIdx < 0 ∨ iIdx ≥ d.iSize_
    · simp only [VectorSet, if_pos h]
      exact iff_of_false (by simp [ERR_IDX, SUCC]) (by omega)
    · simp only [VectorSet, if_neg h]
      exact iff_of_true trivial (by omega)
  · by_cases h : iIdx < 0 ∨ iIdx ≥ d.iSize_
    · simp only [VectorDelete, if_pos h]
      exact iff_of_false (by simp [ERR_IDX, SUCC]) (by omega)
    · simp only [VectorDelete, if_neg h]
      exact iff_of_true trivial (by omega)
  · intro h
    exact vectorInsert_out d item iIdx (by omega)
  · intro h
    have h' : iIdx < 0 ∨ iIdx ≥ d.iSize_ := by omega
    exact ⟨(vectorGet_cases d outPrev iIdx).1 h', by simp [VectorSet, h'],
      by simp [VectorDelete, h']⟩

/-!
Claims about the hash map: construction and cursor.
-/

/-- Claim C10: construction does not establish the iteration cursor.  The junk
the fresh allocation held in the end flag, the cursor slot index and the
cursor node pointer flows through `HashMapInit` unchanged; a first
`HashMapIterate` with `reset=true` produces a state independent of that junk,
whereas a first call with `reset=false` reads the indeterminate fields and has
no defined result: two admissible junk contents make it return a yielded pair
in one case and the end-of-iteration signal in the other. -/
theorem hashmap_init_cursor_indeterminate :
    (∀ (h : Key → Nat → Nat) (e : Bool) (i : Nat) (n : List Pair),
      (HashMapInit h e i n).bEnd_ = e ∧ (HashMapInit h e i n).iIterIdx_ = i ∧
      (HashMapInit h e i n).pIterNode_ = n) ∧
    (∀ (h : Key → Nat → Nat) (e1 e2 : Bool) (i1 i2 : Nat) (n1 n2 : List Pair)
      (o : Option Pair),
      (HashMapIterate (HashMapInit h e1 i1 n1) true o).2.1
        = (HashMapIterate (HashMapInit h e2 i2 n2) true o).2.1) ∧
    ((HashMapIterate (HashMapInit (fun _ _ => 0) true 0 []) false none).1 = END ∧
     (HashMapIterate (HashMapInit (fun _ _ => 0) false 0 [⟨[0], none⟩]) false none).1
       = SUCC ∧
     SUCC ≠ END) := by
  refine ⟨fun h e i n => ⟨rfl, rfl, rfl⟩, fun h e1 e2 i1 i2 n1 n2 o => rfl,
    rfl, rfl, by decide⟩

/-!
Claims about the hash map: put, get, remove.
-/

/-- Byte comparison of a buffer with itself always reports equality. -/
theorem memcmpZero_refl (a : Key) (size : Nat) : memcmpZero a a size = true := by
  simp [memcmpZero]

/-- After a successful in-place replacement, looking the new pair's key up in
the rewritten chain finds exactly the new pair's value. -/
theorem chainLookup_chainReplace (chain chain2 : List Pair) (p : Pair) (size : Nat)
    (h : chainReplace chain p size = some chain2) :
    chainLookup chain2 p.key size = some p.value := by
  induction chain generalizing chain2 with
  | nil => simp [chainReplace] at h
  | cons c rest ih =>
    by_cases hc : memcmpZero c.key p.key size
    · simp only [chainReplace, if_pos hc, Option.some.injEq] at h
      subst h
      simp [chainLookup, memcmpZero_refl]
    · simp only [chainReplace, if_neg hc, Option.map_eq_some'] at h
      obtain ⟨c2, hc2, rfl⟩ := h
      simp only [chainLookup, if_neg hc]
      exact ih c2 hc2

/-- A chain none of whose stored keys is byte-equal to the query yields no
lookup result. -/
theorem chainLookup_of_absent (chain : List Pair) (key : Key) (size : Nat)
    (h : ∀ q ∈ chain, memcmpZero q.key key size = false) :
    chainLookup chain key size = none := by
  induction chain with
  | nil => rfl
  | cons c rest ih =>
    have hc : ¬(memcmpZero c.key key size = true) := by
      simp [h c (List.mem_cons_self c rest)]
    simp only [chainLookup, if_neg hc]
    exact ih fun q hq => h q (List.mem_cons_of_mem _ hq)

/-- Claim C4: on any well-formed map, a `HashMapPut` of the pair `(k, v)`
followed by a `HashMapGet` with the same key over the same nonzero key size
returns the success marker and writes `v` to the output slot; and a
`HashMapGet` for a key byte-equal to no stored pair returns the not-found
signal `NOKEY` — distinct from every hard error — with the output slot cleared
to null. -/
theorem hashmap_put_get_round_trip (d : HashMapData) (p : Pair) (k : Key)
    (size : Nat) (o1 o2 : Value)
    (hlen : d.aSlot_.length = d.iCountSlot_) (hpos : 0 < d.iCountSlot_)
    (hsz : size ≠ 0) :
    HashMapGet (HashMapPut d p size).2 p.key size o1 = (SUCC, p.value) ∧
    ((∀ chain ∈ d.aSlot_, ∀ q ∈ chain, memcmpZero q.key k size = false) →
      HashMapGet d k size o2 = (NOKEY, none)) ∧
    NOKEY ≠ ERR_KEYSIZE ∧ NOKEY ≠ ERR_NOINIT ∧ NOKEY ≠ ERR_GET := by
  refine ⟨?_, ?_, by decide, by decide, by decide⟩
  · have hidx : slotOf d p.key size < d.aSlot_.length := by
      rw [hlen]; exact Nat.mod_lt _ hpos
    rcases hrep : chainReplace (d.aSlot_[slotOf d p.key size]?.getD []) p size with
      _ | chain2
    · have hput : HashMapPut d p size
          = (SUCC, { d with
              aSlot_ := d.aSlot_.set (slotOf d p.key size)
                (p :: d.aSlot_[slotOf d p.key size]?.getD []),
              iSize_ := d.iSize_ + 1 }) := by
        simp [HashMapPut, hsz, hrep]
      rw [hput]
      simp only [HashMapGet, if_neg hsz]
      have hslot : slotOf { d with
          aSlot_ := d.aSlot_.set (slotOf d p.key size)
            (p :: d.aSlot_[slotOf d p.key size]?.getD []),
          iSize_ := d.iSize_ + 1 } p.key size = slotOf d p.key size := rfl
      rw [hslot, List.getD_eq_getElem?_getD, List.getElem?_set_self hidx]
      simp [chainLookup, memcmpZero_refl]
    · have hput : HashMapPut d p size
          = (SUCC, { d with
              aSlot_ := d.aSlot_.set (slotOf d p.key size) chain2 }) := by
        simp [HashMapPut, hsz, hrep]
      rw [hput]
      simp only [HashMapGet, if_neg hsz]
      have hslot : slotOf { d with
          aSlot_ := d.aSlot_.set (slotOf d p.key size) chain2 } p.key size
          = slotOf d p.key size := rfl
      rw [hslot, List.getD_eq_getElem?_getD, List.getElem?_set_self hidx]
      simp [chainLookup_chainReplace _ chain2 p size hrep]
  · intro habs
    have hidx : slotOf d k size < d.aSlot_.length := by
      rw [hlen]; exact Nat.mod_lt _ hpos
    have hmem : d.aSlot_[slotOf d k size]?.getD [] ∈ d.aSlot_ := by
      rw [List.getElem?_eq_getElem hidx]
      simp only [Option.getD_some]
      exact List.getElem_mem hidx
    have hnone := chainLookup_of_absent _ k size
      (habs _ hmem)
    simp [HashMapGet, hsz, hnone]

/-- Witness for C4 at a concrete three-slot map: put `([4], 9)` then get `[4]`
yields 9 with success; get of the absent key `[5]` yields the not-found signal
with a cleared output. -/
theorem hashmap_put_get_round_trip_witness :
    HashMapGet (HashMapPut
        (⟨false, 0, 0, 3, 0, [[], [], []], [], fun k _ => k.headD 0⟩ : HashMapData)
        ⟨[4], some 9⟩ 1).2 [4] 1 none = (SUCC, some 9) ∧
    HashMapGet
        (⟨false, 0, 0, 3, 0, [[], [], []], [], fun k _ => k.headD 0⟩ : HashMapData)
        [5] 1 none = (NOKEY, none) :=
  ⟨(hashmap_put_get_round_trip
      (⟨false, 0, 0, 3, 0, [[], [], []], [], fun k _ => k.headD 0⟩ : HashMapData)
      ⟨[4], some 9⟩ [5] 1 none none (by decide) (by decide) (by decide)).1,
   (hashmap_put_get_round_trip
      (⟨false, 0, 0, 3, 0, [[], [], []], [], fun k _ => k.headD 0⟩ : HashMapData)
      ⟨[4], some 9⟩ [5] 1 none none (by decide) (by decide) (by decide)).2.1
      (by decide)⟩

/-- Claim C1 is refuted by the code: a successful `HashMapRemove` does return
the success marker and unlink the matching chain node, but it never writes
`iSize_` — in the whole translation unit that field is only zeroed by
`HashMapInit` and incremented by `HashMapPut` — so the stored size is
unchanged on every input.  At the spec's scenario (the four single-byte keys
a, b, c, d, then `remove("b")`), the removal succeeds and b's chain node is
gone, yet `size()` still returns 4, not the claimed 3. -/
theorem hashmap_remove_no_size_decrement :
    (∀ (d : HashMapData) (key : Key) (size : Nat),
      (HashMapRemove d key size).2.iSize_ = d.iSize_) ∧
    HashMapSize mapABCD = 4 ∧
    mapABCD.aSlot_.getD 98 [] = [⟨[98], some 2⟩] ∧
    (HashMapRemove mapABCD [98] 1).1 = SUCC ∧
    (HashMapRemove mapABCD [98] 1).2.aSlot_.getD 98 [] = [] ∧
    HashMapSize (HashMapRemove mapABCD [98] 1).2 = 4 ∧
    HashMapSize (HashMapRemove mapABCD [98] 1).2 ≠ 3 := by
  refine ⟨?_, by decide, by decide, by decide, by decide, by decide, by decide⟩
  intro d key size
  by_cases hsz : size = 0
  · simp [HashMapRemove, hsz]
  · rcases hrem : chainRemove (d.aSlot_[slotOf d key size]?.getD []) key size
      with _ | c2
    · simp [HashMapRemove, hsz, hrem]
    · simp [HashMapRemove, hsz, hrem]

/-- Positional content of the image of the right-shift `memmove` performed by
`VectorInsert`: with a gap opened at position `n` inside the `s`-item valid
region of the backing array `A`, the written item sits at `n`, positions below
`n` are untouched, and position `j` with `n < j ≤ s` holds what was at
`j - 1`. -/
theorem getElem?_shiftRight (A : List Item) (x : Item) (n s j : Nat)
    (hn : n ≤ s) (hs : s < A.length) :
    (j < n → (A.take n ++ x :: ((A.drop n).take (s - n)) ++ A.drop (s + 1))[j]?
        = A[j]?) ∧
    ((A.take n ++ x :: ((A.drop n).take (s - n)) ++ A.drop (s + 1))[n]?
        = some x) ∧
    (n < j → j ≤ s →
      (A.take n ++ x :: ((A.drop n).take (s - n)) ++ A.drop (s + 1))[j]?
        = A[j - 1]?) := by
  have hlt : (A.take n).length = n := by
    rw [List.length_take]; omega
  have hM : ((A.drop n).take (s - n)).length = s - n := by
    rw [List.length_take, List.length_drop]; omega
  have hlen1 : (A.take n ++ x :: (A.drop n).take (s - n)).length = s + 1 := by
    rw [List.length_append, hlt, List.length_cons, hM]; omega
  refine ⟨?_, ?_, ?_⟩
  · intro hj
    rw [List.getElem?_append_left
        (by omega : j < (A.take n ++ x :: (A.drop n).take (s - n)).length),
      List.getElem?_append_left (by omega : j < (A.take n).length),
      List.getElem?_take_of_lt hj]
  · rw [List.getElem?_append_left
        (by omega : n < (A.take n ++ x :: (A.drop n).take (s - n)).length),
      List.getElem?_append_right (by omega : (A.take n).length ≤ n), hlt,
      Nat.sub_self, List.getElem?_cons_zero]
  · intro hj1 hj2
    rw [List.getElem?_append_left
        (by omega : j < (A.take n ++ x :: (A.drop n).take (s - n)).length),
      List.getElem?_append_right (by omega : (A.take n).length ≤ j), hlt]
    have hj3 : j - n = (j - n - 1) + 1 := by omega
    rw [hj3, List.getElem?_cons_succ,
      List.getElem?_take_of_lt (by omega : j - n - 1 < s - n),
      List.getElem?_drop]
    congr 1
    omega

/-- The left-shift `memmove` of `VectorDelete` at the position of a freshly
inserted gap undoes the right shift: the occupied prefix of length `s` is
restored exactly. -/
theorem shiftRight_then_delete (A : List Item) (x : Item) (n s : Nat)
    (hn : n ≤ s) (hs : s < A.length) :
    ((A.take n ++ x :: ((A.drop n).take (s - n)) ++ A.drop (s + 1)).take n
      ++ ((A.take n ++ x :: ((A.drop n).take (s - n)) ++ A.drop (s + 1)).drop
            (n + 1)).take (s - n)
      ++ (A.take n ++ x :: ((A.drop n).take (s - n)) ++ A.drop (s + 1)).drop s
        ).take s = A.take s := by
  have hlt : (A.take n).length = n := by
    rw [List.length_take]; omega
  have hM : ((A.drop n).take (s - n)).length = s - n := by
    rw [List.length_take, List.length_drop]; omega
  have hregroup : A.take n ++ x :: ((A.drop n).take (s - n)) ++ A.drop (s + 1)
      = (A.take n ++ [x]) ++ ((A.drop n).take (s - n) ++ A.drop (s + 1)) := by
    simp
  have htk : (A.take n ++ x :: ((A.drop n).take (s - n)) ++ A.drop (s + 1)).take n
      = A.take n := by
    rw [hregroup, List.take_append_of_le_length
        (by rw [List.length_append, hlt]; omega),
      List.take_append_of_le_length (by omega), List.take_take, Nat.min_self]
  have hdp : (A.take n ++ x :: ((A.drop n).take (s - n)) ++ A.drop (s + 1)).drop
      (n + 1) = (A.drop n).take (s - n) ++ A.drop (s + 1) := by
    rw [hregroup, List.drop_left' (by rw [List.length_append, hlt]; rfl)]
  have hdp2 : ((A.drop n).take (s - n) ++ A.drop (s + 1)).take (s - n)
      = (A.drop n).take (s - n) := by
    rw [List.take_left' hM]
  rw [htk, hdp, hdp2]
  have hshape : A.take n ++ (A.drop n).take (s - n) = A.take s := by
    rw [← List.take_add]
    congr 1
    omega
  rw [hshape, List.take_append_of_le_length (by rw [List.length_take]; omega),
    List.take_take, Nat.min_self]

/-- Core of claim C7: every consequence of the right-shift law for a state `D`
whose backing array is the shift image of an array `A2` agreeing with the old
vector on the occupied prefix (this covers both the already-roomy and the
just-doubled cases of `VectorInsert`). -/
theorem vector_insert_shift_core (d D : VectorData) (item : Item) (i : Int)
    (A2 : List Item)
    (hs0 : 0 ≤ d.iSize_) (h0 : 0 ≤ i) (hi : i ≤ d.iSize_)
    (hslen : d.iSize_.toNat < A2.length)
    (hpre : A2.take d.iSize_.toNat = d.aItem_.take d.iSize_.toNat)
    (hDs : D.iSize_ = d.iSize_ + 1)
    (hDa : D.aItem_ = A2.take i.toNat ++ item ::
      ((A2.drop i.toNat).take (d.iSize_.toNat - i.toNat))
      ++ A2.drop (d.iSize_.toNat + 1)) :
    VectorGet D 0 i = (SUCC, item) ∧
    (∀ j : Int, i < j → j < d.iSize_ + 1 →
      VectorGet D 0 j = (SUCC, (VectorGet d 0 (j - 1)).2)) ∧
    (∀ j : Int, 0 ≤ j → j < i → VectorGet D 0 j = VectorGet d 0 j) ∧
    (VectorDelete D i false).2.1.iSize_ = d.iSize_ ∧
    (VectorDelete D i false).2.1.aItem_.take d.iSize_.toNat
      = d.aItem_.take d.iSize_.toNat := by
  have hn : i.toNat ≤ d.iSize_.toNat := by omega
  have hA2k : ∀ k, k < d.iSize_.toNat → A2[k]? = d.aItem_[k]? := by
    intro k hk
    have h1 := @List.getElem?_take_of_lt Item A2 d.iSize_.toNat k hk
    have h2 := @List.getElem?_take_of_lt Item d.aItem_ d.iSize_.toNat k hk
    rw [← h1, hpre, h2]
  have hb : ¬(i < 0 ∨ i ≥ D.iSize_) := by omega
  have hdel : VectorDelete D i false
      = (SUCC, { D with
          aItem_ := (D.aItem_.take i.toNat
            ++ ((D.aItem_.drop (i.toNat + 1)).take (D.iSize_.toNat - 1 - i.toNat))
            ++ D.aItem_.drop (D.iSize_.toNat - 1)),
          iSize_ := D.iSize_ - 1 }, []) := by
    simp [VectorDelete, hb]
  refine ⟨?_, ?_, ?_, ?_, ?_⟩
  · have hval : D.aItem_.getD i.toNat 0 = item := by
      rw [List.getD_eq_getElem?_getD, hDa,
        (getElem?_shiftRight A2 item i.toNat d.iSize_.toNat 0 hn hslen).2.1]
      rfl
    rw [(vectorGet_cases D 0 i).2 hb, hval]
  · intro j hj1 hj2
    have hbj : ¬(j < 0 ∨ j ≥ D.iSize_) := by omega
    have hbO : ¬(j - 1 < 0 ∨ j - 1 ≥ d.iSize_) := by omega
    have hjn1 : i.toNat < j.toNat := by omega
    have hjn2 : j.toNat ≤ d.iSize_.toNat := by omega
    have hk : j.toNat - 1 < d.iSize_.toNat := by omega
    have hjm : (j - 1).toNat = j.toNat - 1 := by omega
    have hval : D.aItem_.getD j.toNat 0 = d.aItem_.getD (j - 1).toNat 0 := by
      rw [List.getD_eq_getElem?_getD, List.getD_eq_getElem?_getD, hDa,
        (getElem?_shiftRight A2 item i.toNat d.iSize_.toNat j.toNat hn
          hslen).2.2 hjn1 hjn2, hjm, hA2k _ hk]
    rw [(vectorGet_cases D 0 j).2 hbj, (vectorGet_cases d 0 (j - 1)).2 hbO, hval]
  · intro j hj0 hji
    have hbj : ¬(j < 0 ∨ j ≥ D.iSize_) := by omega
    have hbO : ¬(j < 0 ∨ j ≥ d.iSize_) := by omega
    have hjn : j.toNat < i.toNat := by omega
    have hval : D.aItem_.getD j.toNat 0 = d.aItem_.getD j.toNat 0 := by
      rw [List.getD_eq_getElem?_getD, List.getD_eq_getElem?_getD, hDa,
        (getElem?_shiftRight A2 item i.toNat d.iSize_.toNat j.toNat hn
          hslen).1 hjn, hA2k _ (by omega)]
    rw [(vectorGet_cases D 0 j).2 hbj, (vectorGet_cases d 0 j).2 hbO, hval]
  · rw [hdel]
    simp only []
    omega
  · rw [hdel]
    have hDn : D.iSize_.toNat = d.iSize_.toNat + 1 := by omega
    simp only [hDn, Nat.add_sub_cancel, hDa]
    exact (shiftRight_then_delete A2 item i.toNat d.iSize_.toNat hn
      hslen).trans hpre

/-- Claim C7: for a well-formed vector and any valid insertion index
`0 ≤ i ≤ size`: after `insert(x, i)`, `get(i)` returns `x`; `get(j)` for
`i < j < size + 1` (the new size) returns the item previously at `j - 1`;
`get(j)` for `j < i` is unchanged (right-shift law); and a `delete(i)` with no
cleanup then restores the original size and the original occupied item
sequence — insert's inverse up to cleanup side effects. -/
theorem vector_insert_shift (d : VectorData) (item : Item) (i : Int)
    (hwf : VectorWF d) (h0 : 0 ≤ i) (hi : i ≤ d.iSize_) :
    VectorGet (VectorInsert d item i).2.1 0 i = (SUCC, item) ∧
    (∀ j : Int, i < j → j < d.iSize_ + 1 →
      VectorGet (VectorInsert d item i).2.1 0 j
        = (SUCC, (VectorGet d 0 (j - 1)).2)) ∧
    (∀ j : Int, 0 ≤ j → j < i →
      VectorGet (VectorInsert d item i).2.1 0 j = VectorGet d 0 j) ∧
    (VectorDelete (VectorInsert d item i).2.1 i false).2.1.iSize_ = d.iSize_ ∧
    (VectorDelete (VectorInsert d item i).2.1 i false).2.1.aItem_.take
        d.iSize_.toNat
      = d.aItem_.take d.iSize_.toNat := by
  obtain ⟨hs0, hsc, hc0, hlen⟩ := hwf
  have hcnd : ¬(i < 0 ∨ i > d.iSize_) := by omega
  by_cases hg : d.iSize_ = d.iCapacity_
  · have hcnd2 : ¬(d.iCapacity_ * 2 < d.iSize_ ∧ false = true) := by simp
    have htk : d.aItem_.take (d.iCapacity_ * 2).toNat = d.aItem_ :=
      List.take_of_length_le (by omega)
    have hrep : (d.iCapacity_ * 2).toNat - d.aItem_.length
        = d.iCapacity_.toNat := by omega
    have hgrown : _VectorReisze d (d.iCapacity_ * 2) false
        = (SUCC, { d with
            aItem_ := d.aItem_ ++ List.replicate d.iCapacity_.toNat 0,
            iCapacity_ := d.iCapacity_ * 2 }, []) := by
      simp [_VectorReisze, hcnd2, htk, hrep]
    have hcnd3 : ¬(i < 0 ∨ d.iCapacity_ < i) := by omega
    have hins : VectorInsert d item i
        = (SUCC, { d with
            aItem_ := ((d.aItem_ ++ List.replicate d.iCapacity_.toNat 0).take
                i.toNat
              ++ item :: (((d.aItem_
                  ++ List.replicate d.iCapacity_.toNat 0).drop i.toNat).take
                    (d.iSize_.toNat - i.toNat))
              ++ (d.aItem_ ++ List.replicate d.iCapacity_.toNat 0).drop
                  (d.iSize_.toNat + 1)),
            iSize_ := d.iSize_ + 1, iCapacity_ := d.iCapacity_ * 2 }, []) := by
      simp [VectorInsert, hcnd, hg, hgrown, hcnd3]
    exact vector_insert_shift_core d _ item i
      (d.aItem_ ++ List.replicate d.iCapacity_.toNat 0) hs0 h0 hi
      (by rw [List.length_append, List.length_replicate, hlen]; omega)
      (List.take_append_of_le_length (by rw [hlen]; omega))
      (by rw [hins]) (by rw [hins])
  · have hins : VectorInsert d item i
        = (SUCC, { d with
            aItem_ := (d.aItem_.take i.toNat
              ++ item :: ((d.aItem_.drop i.toNat).take
                  (d.iSize_.toNat - i.toNat))
              ++ d.aItem_.drop (d.iSize_.toNat + 1)),
            iSize_ := d.iSize_ + 1 }, []) := by
      simp [VectorInsert, hcnd, hg]
    exact vector_insert_shift_core d _ item i d.aItem_ hs0 h0 hi
      (by rw [hlen]; omega) rfl (by rw [hins]) (by rw [hins])

/-- Witness for C7 on the full two-item vector `[10, 20]` (insertion forces a
growth): inserting 99 at index 1 makes `get` return 10, 99, 20 at indices
0, 1, 2, and deleting index 1 restores size 2 and the prefix `[10, 20]`. -/
theorem vector_insert_shift_witness :
    VectorGet (VectorInsert ⟨2, 2, [10, 20], 0⟩ 99 1).2.1 0 1 = (SUCC, 99) ∧
    (∀ j : Int, 1 < j → j < (2 : Int) + 1 →
      VectorGet (VectorInsert ⟨2, 2, [10, 20], 0⟩ 99 1).2.1 0 j
        = (SUCC, (VectorGet ⟨2, 2, [10, 20], 0⟩ 0 (j - 1)).2)) ∧
    (∀ j : Int, 0 ≤ j → j < 1 →
      VectorGet (VectorInsert ⟨2, 2, [10, 20], 0⟩ 99 1).2.1 0 j
        = VectorGet ⟨2, 2, [10, 20], 0⟩ 0 j) ∧
    (VectorDelete (VectorInsert ⟨2, 2, [10, 20], 0⟩ 99 1).2.1 1 false).2.1.iSize_
      = 2 ∧
    (VectorDelete (VectorInsert ⟨2, 2, [10, 20], 0⟩ 99 1).2.1 1
        false).2.1.aItem_.take (2 : Int).toNat
      = ([10, 20] : List Item).take (2 : Int).toNat :=
  vector_insert_shift ⟨2, 2, [10, 20], 0⟩ 99 1
    ⟨by decide, by decide, by decide, by decide⟩ (by decide) (by decide)

/-- Claim C8: on a well-formed vector of size `s`, `resize(newCapacity, true)`
with positive `newCapacity < s` passes exactly the trailing items at positions
`newCapacity .. s-1`, in order and each exactly once, to the destroy callback
(`s - newCapacity` calls), drops the size to `newCapacity`, and on the
(modelled as successful) reallocation sets the capacity to exactly
`newCapacity` with the first `newCapacity` items unchanged; with
`newCapacity ≥ s` it reallocates to the new capacity destroying no item and
leaving the size and the occupied prefix unchanged. -/
theorem vector_resize_clean_behaviour (d : VectorData) (newCap : Int)
    (hwf : VectorWF d) (hpos : 0 < newCap) :
    (newCap < d.iSize_ →
      VectorResize d newCap true
        = (SUCC,
           { iSize_ := newCap, iCapacity_ := newCap,
             aItem_ := d.aItem_.take newCap.toNat, pDestroy_ := d.pDestroy_ },
           (d.aItem_.take d.iSize_.toNat).drop newCap.toNat) ∧
      ((d.aItem_.take d.iSize_.toNat).drop newCap.toNat).length
        = (d.iSize_ - newCap).toNat) ∧
    (d.iSize_ ≤ newCap →
      (VectorResize d newCap true).1 = SUCC ∧
      (VectorResize d newCap true).2.2 = [] ∧
      (VectorResize d newCap true).2.1.iSize_ = d.iSize_ ∧
      (VectorResize d newCap true).2.1.iCapacity_ = newCap ∧
      (VectorResize d newCap true).2.1.aItem_.take d.iSize_.toNat
        = d.aItem_.take d.iSize_.toNat) := by
  obtain ⟨hs0, hsc, hc0, hlen⟩ := hwf
  constructor
  · intro hlt
    have hcond : newCap < d.iSize_ ∧ true = true := ⟨hlt, rfl⟩
    have h0 : newCap.toNat - d.aItem_.length = 0 := by rw [hlen]; omega
    constructor
    · simp [VectorResize, _VectorReisze, hcond, h0]
    · simp only [List.length_drop, List.length_take, hlen]
      omega
  · intro hle
    have hcond : ¬(newCap < d.iSize_ ∧ true = true) := by
      simp; omega
    have hcond2 : ¬(newCap < d.iSize_) := by omega
    refine ⟨by simp [VectorResize, _VectorReisze, hcond, hcond2],
      by simp [VectorResize, _VectorReisze, hcond, hcond2],
      by simp [VectorResize, _VectorReisze, hcond, hcond2],
      by simp [VectorResize, _VectorReisze, hcond, hcond2], ?_⟩
    have harr : (VectorResize d newCap true).2.1.aItem_
        = d.aItem_.take newCap.toNat
          ++ List.replicate (newCap.toNat - d.aItem_.length) 0 := by
      simp [VectorResize, _VectorReisze, hcond, hcond2]
    rw [harr, List.take_append_of_le_length, List.take_take,
      Nat.min_eq_left (by omega)]
    simp only [List.length_take, hlen]
    omega

/-- Witness for C8: on the vector `⟨3, 4, [10, 20, 30, 0], 0⟩` (three occupied
slots), shrinking to capacity 2 with the clean knob destroys exactly the one
trailing item 30 and leaves `[10, 20]` with size and capacity 2; growing to
capacity 6 destroys nothing and keeps the occupied prefix. -/
theorem vector_resize_clean_behaviour_witness :
    (VectorResize ⟨3, 4, [10, 20, 30, 0], 0⟩ 2 true
        = (SUCC, ⟨2, 2, [10, 20], 0⟩, [30]) ∧
      VectorResize ⟨3, 4, [10, 20, 30, 0], 0⟩ 6 true
        = (SUCC, ⟨3, 6, [10, 20, 30, 0, 0, 0], 0⟩, [])) ∧
    ((VectorResize ⟨3, 4, [10, 20, 30, 0], 0⟩ 2 true).2.2.length
      = ((3 : Int) - 2).toNat) :=
  ⟨⟨(((vector_resize_clean_behaviour ⟨3, 4, [10, 20, 30, 0], 0⟩ 2
        ⟨by decide, by decide, by decide, by decide⟩ (by decide)).1
        (by decide)).1).trans (by decide),
    by
      have h := (vector_resize_clean_behaviour ⟨3, 4, [10, 20, 30, 0], 0⟩ 6
        ⟨by decide, by decide, by decide, by decide⟩ (by decide)).2 (by decide)
      decide⟩,
   (((vector_resize_clean_behaviour ⟨3, 4, [10, 20, 30, 0], 0⟩ 2
        ⟨by decide, by decide, by decide, by decide⟩ (by decide)).1
        (by decide)).1) ▸ (by decide)⟩

/-!
Claim about the hash map iteration cursor.
-/

/-- Behaviour of one pass of the iterate scanning loop: with a slot array of
length `countSlot`, an in-range cursor index and enough fuel, the loop either
reports the end (when no pair remains in the current chain suffix nor in any
later slot) or yields the first remaining pair, moving the cursor so that the
remaining pair sequence shrinks by exactly that pair. -/
theorem iterLoop_spec (aSlot : List (List Pair)) (countSlot : Nat)
    (hcount : aSlot.length = countSlot) :
    ∀ fuel idx node, idx < countSlot → countSlot ≤ idx + 1 + fuel →
    ((node ++ (aSlot.drop (idx + 1)).flatten = [] →
      iterLoop aSlot countSlot fuel idx node = (END, countSlot, [], true, none)) ∧
     (∀ p rest, node ++ (aSlot.drop (idx + 1)).flatten = p :: rest →
      ∃ idx2 node2, iterLoop aSlot countSlot fuel idx node
          = (SUCC, idx2, node2, false, some p)
        ∧ idx2 < countSlot
        ∧ node2 ++ (aSlot.drop (idx2 + 1)).flatten = rest)) := by
  intro fuel
  induction fuel with
  | zero =>
    intro idx node hidx hfe
    have he : idx + 1 = countSlot := by omega
    have hdrop : aSlot.drop (idx + 1) = [] :=
      List.drop_eq_nil_of_le (by omega)
    match node with
    | [] =>
      refine ⟨fun _ => ?_, fun p rest hpr => ?_⟩
      · simp only [iterLoop]
        rw [he]
      · rw [hdrop] at hpr
        simp at hpr
    | q :: qs =>
      refine ⟨fun habs => by simp at habs, fun p rest hpr => ?_⟩
      rw [List.cons_append] at hpr
      injection hpr with h1 h2
      subst h1
      exact ⟨idx, qs, by simp only [iterLoop], hidx, h2⟩
  | succ f ih =>
    intro idx node hidx hfe
    match node with
    | q :: qs =>
      refine ⟨fun habs => by simp at habs, fun p rest hpr => ?_⟩
      rw [List.cons_append] at hpr
      injection hpr with h1 h2
      subst h1
      exact ⟨idx, qs, by simp only [iterLoop], hidx, h2⟩
    | [] =>
      by_cases he : idx + 1 = countSlot
      · have hdrop : aSlot.drop (idx + 1) = [] :=
          List.drop_eq_nil_of_le (by omega)
        refine ⟨fun _ => ?_, fun p rest hpr => ?_⟩
        · simp only [iterLoop]
          rw [if_pos he, he]
        · rw [hdrop] at hpr
          simp at hpr
      · have hlt2 : idx + 1 < countSlot := by omega
        have hlen2 : idx + 1 < aSlot.length := by omega
        have hdropeq : aSlot.drop (idx + 1)
            = aSlot[idx + 1] :: aSlot.drop (idx + 1 + 1) :=
          List.drop_eq_getElem_cons hlen2
        have hgetD : aSlot.getD (idx + 1) [] = aSlot[idx + 1] := by
          rw [List.getD_eq_getElem?_getD, List.getElem?_eq_getElem hlen2]
          rfl
        have hstep : iterLoop aSlot countSlot (f + 1) idx []
            = iterLoop aSlot countSlot f (idx + 1) (aSlot.getD (idx + 1) []) := by
          simp only [iterLoop]
          rw [if_neg he]
        have hrem : aSlot.getD (idx + 1) []
              ++ (aSlot.drop (idx + 1 + 1)).flatten
            = (aSlot.drop (idx + 1)).flatten := by
          rw [hdropeq, List.flatten_cons, hgetD]
        obtain ⟨ihend, ihyield⟩ :=
          ih (idx + 1) (aSlot.getD (idx + 1) []) hlt2 (by omega)
        refine ⟨fun hnil => ?_, fun p rest hpr => ?_⟩
        · rw [hstep]
          apply ihend
          rw [hrem]
          simpa using hnil
        · rw [hstep]
          apply ihyield
          rw [hrem]
          simpa using hpr

/-- Behaviour of a full collection run: from any live cursor state (end flag
clear, index in range), repeatedly iterating yields exactly the remaining pair
sequence — the current chain suffix followed by all chains of the later slots
— and leaves the map with the end flag latched, the slot array and size
untouched, and every further call returning `END` with a cleared output. -/
theorem collectIter_spec :
    ∀ (fuel : Nat) (d : HashMapData),
    d.aSlot_.length = d.iCountSlot_ →
    d.bEnd_ = false →
    d.iIterIdx_ < d.iCountSlot_ →
    (d.pIterNode_ ++ (d.aSlot_.drop (d.iIterIdx_ + 1)).flatten).length < fuel →
    (collectIter fuel d).1
        = d.pIterNode_ ++ (d.aSlot_.drop (d.iIterIdx_ + 1)).flatten ∧
    (collectIter fuel d).2.bEnd_ = true ∧
    (collectIter fuel d).2.aSlot_ = d.aSlot_ ∧
    (collectIter fuel d).2.iSize_ = d.iSize_ ∧
    HashMapIterate (collectIter fuel d).2 false none
      = (END, (collectIter fuel d).2, none) := by
  intro fuel
  induction fuel with
  | zero =>
    intro d _ _ _ hfe
    omega
  | succ f ih =>
    intro d hcount hend hidx hfe
    rcases hcase : d.pIterNode_ ++ (d.aSlot_.drop (d.iIterIdx_ + 1)).flatten with
      _ | ⟨p, rest⟩
    · have hL := (iterLoop_spec d.aSlot_ d.iCountSlot_ hcount d.iCountSlot_
        d.iIterIdx_ d.pIterNode_ hidx (by omega)).1 hcase
      have hIt : HashMapIterate d false none
          = (END, { d with iIterIdx_ := d.iCountSlot_, pIterNode_ := [], bEnd_ := true }, none) := by
        simp [HashMapIterate, hend, hL]
      have hC : collectIter (f + 1) d
          = ([], { d with iIterIdx_ := d.iCountSlot_, pIterNode_ := [], bEnd_ := true }) := by
        simp [collectIter, hIt]
      rw [hC]
      exact ⟨rfl, rfl, rfl, rfl, by simp [HashMapIterate]⟩
    · obtain ⟨idx2, node2, hLeq, hidx2, hrem2⟩ :=
        (iterLoop_spec d.aSlot_ d.iCountSlot_ hcount d.iCountSlot_
          d.iIterIdx_ d.pIterNode_ hidx (by omega)).2 p rest hcase
      have hIt : HashMapIterate d false none
          = (SUCC, { d with iIterIdx_ := idx2, pIterNode_ := node2, bEnd_ := false }, some p) := by
        simp [HashMapIterate, hend, hLeq]
      have hC : collectIter (f + 1) d
          = (p :: (collectIter f { d with iIterIdx_ := idx2, pIterNode_ := node2, bEnd_ := false }).1,
             (collectIter f { d with iIterIdx_ := idx2, pIterNode_ := node2, bEnd_ := false }).2) := by
        simp [collectIter, hIt]
      obtain ⟨ih1, ih2, ih3, ih4, ih5⟩ :=
        ih { d with iIterIdx_ := idx2, pIterNode_ := node2, bEnd_ := false }
          hcount rfl hidx2
        (by
          show (node2 ++ (d.aSlot_.drop (idx2 + 1)).flatten).length < f
          rw [hrem2]
          have hlc := congrArg List.length hcase
          simp only [List.length_cons] at hlc hfe ⊢
          omega)
      rw [hC]
      refine ⟨?_, ih2, ih3, ih4, ih5⟩
      rw [ih1]
      show p :: (node2 ++ (d.aSlot_.drop (idx2 + 1)).flatten) = p :: rest
      rw [hrem2]

/-- What a full iteration pass actually guarantees on the code (bears on
claim C5): on any map with its slot array intact (length `iCountSlot_`, at
least one slot), a reset followed by repeated `iterate` calls yields exactly
the pairs of all slot chains in slot order — each stored pair exactly once —
before latching the end flag; the map's stored size is untouched, and every
further call without a reset returns `END` with a cleared output and an
unchanged state (the end state is sticky).  The yielded count therefore
equals the chains' total, which claim C5 equates with `size()` — an equation
the program does not maintain, because `HashMapRemove` never decrements
`iSize_` (see the witness, where a pass over the post-removal map yields 3
pairs while `size()` reports 4). -/
theorem hashmap_iterate_yields_stored_pairs (d : HashMapData) (o : Option Pair)
    (fuel : Nat) (hlen : d.aSlot_.length = d.iCountSlot_)
    (hpos : 0 < d.iCountSlot_) (hfuel : d.aSlot_.flatten.length < fuel) :
    (collectIter fuel (HashMapIterate d true o).2.1).1 = d.aSlot_.flatten ∧
    (collectIter fuel (HashMapIterate d true o).2.1).1.length
      = d.aSlot_.flatten.length ∧
    (collectIter fuel (HashMapIterate d true o).2.1).2.bEnd_ = true ∧
    (collectIter fuel (HashMapIterate d true o).2.1).2.iSize_ = d.iSize_ ∧
    HashMapIterate (collectIter fuel (HashMapIterate d true o).2.1).2 false none
      = (END, (collectIter fuel (HashMapIterate d true o).2.1).2, none) := by
  have hreset : (HashMapIterate d true o).2.1
      = { d with iIterIdx_ := 0, pIterNode_ := d.aSlot_.getD 0 [], bEnd_ := false } := by
    simp [HashMapIterate]
  have hflat : d.aSlot_.getD 0 [] ++ (d.aSlot_.drop 1).flatten
      = d.aSlot_.flatten := by
    match hA : d.aSlot_ with
    | [] =>
      rw [hA] at hlen
      simp at hlen
      omega
    | a :: as => simp
  rw [hreset]
  obtain ⟨h1, h2, h3, h4, h5⟩ := collectIter_spec fuel
    { d with iIterIdx_ := 0, pIterNode_ := d.aSlot_.getD 0 [], bEnd_ := false }
    hlen rfl hpos
    (by
      show (d.aSlot_.getD 0 [] ++ (d.aSlot_.drop (0 + 1)).flatten).length < fuel
      rw [Nat.zero_add, hflat]
      exact hfuel)
  have hfst : (collectIter fuel
      { d with iIterIdx_ := 0, pIterNode_ := d.aSlot_.getD 0 [], bEnd_ := false }).1
      = d.aSlot_.flatten := by
    rw [h1]
    show d.aSlot_.getD 0 [] ++ (d.aSlot_.drop (0 + 1)).flatten = d.aSlot_.flatten
    rw [Nat.zero_add, hflat]
  exact ⟨hfst, by rw [hfst], h2, h4, h5⟩

/-- Witness for the iteration theorem at a reachable program state that
refutes claim C5 as stated: the a/b/c/d map after the successful
`remove("b")`.  The reset-then-iterate pass yields exactly the three stored
pairs (a, c, d, in slot order) and ends stickily, but `size()` still reports
4: the pass does not yield `size()` many pairs. -/
theorem hashmap_iterate_yields_stored_pairs_witness :
    (collectIter 4 (HashMapIterate (HashMapRemove mapABCD [98] 1).2 true
        none).2.1).1 = (HashMapRemove mapABCD [98] 1).2.aSlot_.flatten ∧
    (collectIter 4 (HashMapIterate (HashMapRemove mapABCD [98] 1).2 true
        none).2.1).2.bEnd_ = true ∧
    HashMapIterate (collectIter 4 (HashMapIterate (HashMapRemove mapABCD
        [98] 1).2 true none).2.1).2 false none
      = (END, (collectIter 4 (HashMapIterate (HashMapRemove mapABCD [98]
          1).2 true none).2.1).2, none) ∧
    (collectIter 4 (HashMapIterate (HashMapRemove mapABCD [98] 1).2 true
        none).2.1).1.length = 3 ∧
    HashMapSize (HashMapRemove mapABCD [98] 1).2 = 4 ∧
    ((collectIter 4 (HashMapIterate (HashMapRemove mapABCD [98] 1).2 true
        none).2.1).1.length : Int)
      ≠ HashMapSize (HashMapRemove mapABCD [98] 1).2 := by
  have h := hashmap_iterate_yields_stored_pairs (HashMapRemove mapABCD [98] 1).2
    none 4 (by decide) (by decide) (by decide)
  refine ⟨h.1, h.2.2.1, h.2.2.2.2, ?_, by decide, ?_⟩
  · rw [h.2.1]
    decide
  · rw [h.2.1]
    decide

end CCDS
